import Mathlib

/-!
# Verification of the low-latency logger core

Shallow embedding, in Lean 4, of the core of the `low_latency_logger`
repository, together with theorems settling the specification claims.

The embedding follows the C++ sources:

* `src/internal/ring_buffer.h` — `SpscRingBuffer` (`TryPush`, `TryPop`, `Size`):
  machine `size_t` indices are modelled as `Nat` kept below `2^64`, with every
  store and every pairwise difference taken modulo `2^64`, exactly as the
  unsigned 64-bit hardware arithmetic behaves.  The raw `storage_` array is
  modelled as a map from slot index to `Option` (a slot holds `none` when no
  object is currently constructed in it, mirroring placement-new / explicit
  destruction).
* `src/include/record.h` — `LogRecord` (`SetMessage`, `FormatMessage`,
  `SetSourceLocation`).  A C string argument is modelled as the list of its
  bytes up to (excluding) the terminating NUL, so `strlen` is `List.length`;
  a null `char *` is `Option.none`.  The inline `message` array is a map
  `Nat → Nat` from byte offset to byte value.
* `src/src/formatter.cpp` — `TextFormatter::FormatRecord`, and
  `src/src/encoder.cpp` — `EncodeTextRecord`.  Both bodies are identical
  except for the value printed in the leading `[...]` field (the raw
  `record.timestamp` in the formatter, `TscToNanoseconds(record.timestamp)`
  in the encoder), so both are defined through the shared `formatCore`
  with that value as a parameter.  `vsnprintf`/`snprintf` into a buffer of
  size `n ≥ 1` is modelled by its C semantics: it writes
  `min (formatted length) (n - 1)` bytes plus a terminating NUL and returns
  the full formatted length (the encoding-error negative return of the C
  function has no counterpart for the `%llu`/`%s`/`%d` conversions used here
  and is not modelled).
* `src/src/clock.cpp` — `TscToNanoseconds` and its one-shot calibration.
  IEEE doubles are modelled as exact rationals `ℚ`; the sign tests and the
  substitution logic of the calibration are unaffected by rounding, and the
  final `static_cast<std::uint64_t>` of a non-negative value is `Nat.floor`.
* `src/include/consumer.h` — `Consumer::Start`, `Consumer::Stop` and the
  drain loop `Consumer::Loop`.  The loop's successive loads of the atomic
  `is_running_` flag are modelled by a list of booleans (the values the
  loads return; an exhausted list means the flag is `false`, i.e. `Stop`
  has already stored `false`).  The loop itself is a fuel-indexed recursion;
  the sink is modelled as the list of `Write`/`Flush` events it receives.
* `src/include/logger.h` — `Logger::LogImpl`, `Logger::LogFormat`,
  `Logger::PushRecord`, `Logger::PrepareRecord`.

Feature toggles are modelled at their defaults from `src/include/config.h`:
`LOGGER_MAX_MESSAGE_SIZE = 1024`, `LOGGER_ENABLE_THREAD_ID = 1`,
`LOGGER_ENABLE_SOURCE_LOCATION = 1`, `LOGGER_BACKEND_SPIN_COUNT = 1000`.
-/

namespace LowLatencyLogger

/-! ## Byte-buffer primitives -/

/-- The bytes of a string literal (ASCII codes), used to state facts about
formatted output. -/
def strBytes (s : String) : List Nat :=
  s.data.map Char.toNat

/-- Pointwise update of a byte buffer modelled as `Nat → Nat`
(`buffer[i] = v`). -/
def updateFn (b : Nat → Nat) (i v : Nat) : Nat → Nat :=
  fun j => if j = i then v else b j

/-- Write a list of bytes into the buffer starting at `pos`
(`memcpy(buffer + pos, bytes, len)`). -/
def writeBytes (b : Nat → Nat) (pos : Nat) : List Nat → (Nat → Nat)
  | [] => b
  | x :: xs => writeBytes (updateFn b pos x) (pos + 1) xs

/-- The first `n` bytes of a buffer, as a list. -/
def bufBytes (b : Nat → Nat) (n : Nat) : List Nat :=
  (List.range n).map b

/-! ## Unsigned 64-bit index arithmetic

`size_t` values on the modelled platform are 64-bit.  An index is a `Nat`
kept `< 2^64`; `sub64` is the wrapping difference `a - b` computed in
unsigned 64-bit arithmetic. -/

/-- `2^64`, the modulus of `size_t`/`std::uint64_t` arithmetic. -/
def u64 : Nat := 2 ^ 64

/-- Unsigned 64-bit subtraction `a - b` (operands assumed `< 2^64`). -/
def sub64 (a b : Nat) : Nat :=
  (u64 + a - b) % u64

/-! ## SPSC ring buffer (`src/internal/ring_buffer.h`)

`SpscRingBuffer<T, Capacity>`: raw storage of `Capacity` slots, a
producer-owned `write_index_` and a consumer-owned `read_index_`.  The
capacity (`cap` below) is a template parameter; `static_assert`s require it
to be a power of two greater than one.  Slot indexing is `idx & kMask` with
`kMask = Capacity - 1`. -/

/-- State of `SpscRingBuffer<α, cap>`: the two atomic indices and the raw
storage (a slot is `none` while no object is constructed in it). -/
structure RingState (α : Type) where
  writeIdx : Nat
  readIdx : Nat
  storage : Nat → Option α

/-- A freshly constructed ring: both indices zero, storage raw
(no constructed objects). -/
def initRing (α : Type) : RingState α :=
  ⟨0, 0, fun _ => none⟩

/-- `SpscRingBuffer::TryPush`.  Loads `w = write_idx` (relaxed) and
`r = read_idx` (acquire); if `w - r >= kCapacity - 1` (unsigned 64-bit
difference) returns `false` without touching memory; otherwise
placement-constructs the element at slot `w & kMask`, stores
`write_idx = w + 1` (release) and returns `true`. -/
def tryPush (cap : Nat) (x : α) (s : RingState α) : Bool × RingState α :=
  let w := s.writeIdx
  let r := s.readIdx
  if sub64 w r ≥ cap - 1 then
    (false, s)
  else
    (true, { writeIdx := (w + 1) % u64
             readIdx := r
             storage := fun i => if i = w &&& (cap - 1) then some x else s.storage i })

/-- `SpscRingBuffer::TryPop`.  Loads `w = write_idx` (acquire) and
`r = read_idx` (relaxed); if `r == w` returns `false`; otherwise moves the
element out of slot `r & kMask`, destroys the slot in place, stores
`read_idx = r + 1` (release) and returns `true`.  The second component is
the value moved into `out_element` (the slot contents). -/
def tryPop (cap : Nat) (s : RingState α) : Bool × Option α × RingState α :=
  let w := s.writeIdx
  let r := s.readIdx
  if r = w then
    (false, none, s)
  else
    (true, s.storage (r &&& (cap - 1)),
     { writeIdx := w
       readIdx := (r + 1) % u64
       storage := fun i => if i = r &&& (cap - 1) then none else s.storage i })

/-- `SpscRingBuffer::Size`: the (possibly stale) occupancy `w - r` in
unsigned 64-bit arithmetic. -/
def ringSize (s : RingState α) : Nat :=
  sub64 s.writeIdx s.readIdx

/-! ### Operation sequences and reachability -/

/-- A producer/consumer operation on the ring. -/
inductive RingOp (α : Type) where
  | push (x : α)
  | pop
deriving DecidableEq

/-- One operation applied to an accumulator
`(ring state, successfully pushed elements, successfully popped elements)`. -/
def ringStep (cap : Nat) (acc : RingState α × List α × List α) (op : RingOp α) :
    RingState α × List α × List α :=
  match op with
  | .push x =>
      let (ok, s') := tryPush cap x acc.1
      (s', if ok then acc.2.1 ++ [x] else acc.2.1, acc.2.2)
  | .pop =>
      let (ok, out, s') := tryPop cap acc.1
      (s', acc.2.1,
       if ok then acc.2.2 ++ (match out with | some v => [v] | none => []) else acc.2.2)

/-- Run a sequence of operations from the empty ring, collecting the
successfully pushed and popped elements in order. -/
def ringRun (cap : Nat) (ops : List (RingOp α)) : RingState α × List α × List α :=
  ops.foldl (ringStep cap) (initRing α, [], [])

/-- A state is reachable when some sequence of `TryPush`/`TryPop`
operations starting from the empty ring produces it. -/
def Reachable (cap : Nat) (s : RingState α) : Prop :=
  ∃ ops : List (RingOp α), (ringRun cap ops).1 = s

/-! ### The ring invariant -/

/-- Invariant carried along a run of operations: both indices are 64-bit
values, the occupancy is at most `cap - 1`, and the slots from `read_idx`
to `write_idx - 1` hold exactly the pushed-but-not-yet-popped elements in
push order. -/
def ringInv (cap : Nat) (acc : RingState α × List α × List α) : Prop :=
  acc.1.writeIdx < u64 ∧ acc.1.readIdx < u64 ∧
  ∃ pending : List α,
    acc.2.1 = acc.2.2 ++ pending ∧
    pending.length = ringSize acc.1 ∧
    ringSize acc.1 ≤ cap - 1 ∧
    ∀ j, j < pending.length → acc.1.storage ((acc.1.readIdx + j) % cap) = pending[j]?

/-! ## Log levels (`src/include/level.h`) -/

/-- `logger::Level`: six severity levels in ascending order. -/
inductive Level where
  | trace
  | debug
  | info
  | warn
  | error
  | fatal
deriving DecidableEq

/-- `LevelToString`: the string literal the formatter prints for a level. -/
def LevelToString : Level → String
  | .trace => "TRACE"
  | .debug => "DEBUG"
  | .info => "INFO"
  | .warn => "WARN"
  | .error => "ERROR"
  | .fatal => "FATAL"

/-! ## Configuration constants (`src/include/config.h`, defaults) -/

/-- `LOGGER_MAX_MESSAGE_SIZE` (default 1024). -/
def LOGGER_MAX_MESSAGE_SIZE : Nat := 1024

/-- `LOGGER_BACKEND_SPIN_COUNT` (default 1000). -/
def LOGGER_BACKEND_SPIN_COUNT : Nat := 1000

/-! ## Log record (`src/include/record.h`)

The default feature toggles enable both the `thread_id` field and the
source-location triple.  `file` / `function` are `const char *` pointers to
static strings: `none` models a null pointer.  The inline `message` array is
a byte map; a C-string argument to `SetMessage` is modelled as the list of
its bytes before the terminating NUL (so `strlen` is the list length). -/

/-- `logger::LogRecord` (padding fields have no behavioural content and are
omitted). -/
structure LogRecord where
  level : Level
  timestamp : Nat
  messageLength : Nat
  threadId : Nat
  file : Option String
  function : Option String
  line : Int
  message : Nat → Nat

/-- A `LogRecord` with every field zeroed; stands for the (never observed)
contents of an unconstructed record where the C++ object would be
uninitialized stack memory. -/
def defaultRecord : LogRecord :=
  { level := .trace, timestamp := 0, messageLength := 0, threadId := 0
    file := none, function := none, line := 0, message := fun _ => 0 }

/-- `LogRecord::SetMessage(const char *msg)`: null guard, `strlen`,
truncation to `LOGGER_MAX_MESSAGE_SIZE - 1` bytes, `memcpy`, NUL
terminator, `message_length` update.  Returns the updated record and the
byte count written. -/
def SetMessage (rec : LogRecord) (msg : Option (List Nat)) : LogRecord × Nat :=
  match msg with
  | none =>
      ({ rec with message := updateFn rec.message 0 0, messageLength := 0 }, 0)
  | some bytes =>
      let len := if bytes.length ≥ LOGGER_MAX_MESSAGE_SIZE
                 then LOGGER_MAX_MESSAGE_SIZE - 1
                 else bytes.length
      ({ rec with
           message := updateFn (writeBytes rec.message 0 (bytes.take len)) len 0
           messageLength := len }, len)

/-- `LogRecord::FormatMessage(fmt, args...)`: `snprintf` into the inline
buffer.  The model's `rendered` argument is the full output of the format
string (`none` models a null `fmt` pointer): `snprintf` writes
`min (result, LOGGER_MAX_MESSAGE_SIZE - 1)` bytes plus a NUL and returns the
full length `result`, which the source then clamps into `message_length`. -/
def FormatMessage (rec : LogRecord) (rendered : Option (List Nat)) : LogRecord × Nat :=
  match rendered with
  | none =>
      ({ rec with message := updateFn rec.message 0 0, messageLength := 0 }, 0)
  | some bytes =>
      let result := bytes.length
      let ncopy := min result (LOGGER_MAX_MESSAGE_SIZE - 1)
      let len := if result < LOGGER_MAX_MESSAGE_SIZE then result
                 else LOGGER_MAX_MESSAGE_SIZE - 1
      ({ rec with
           message := updateFn (writeBytes rec.message 0 (bytes.take ncopy)) ncopy 0
           messageLength := len }, len)

/-- `LogRecord::SetSourceLocation(file, line, function)`: stores the three
references verbatim. -/
def SetSourceLocation (rec : LogRecord) (fileName : Option String) (lineNumber : Int)
    (funcName : Option String) : LogRecord :=
  { rec with file := fileName, line := lineNumber, function := funcName }

/-! ## Clock calibration (`src/src/clock.cpp`)

Doubles are modelled as exact rationals; the calibration's sign tests and
substitution are insensitive to rounding (an IEEE quotient of a non-negative
numerator by a positive denominator in this value range is non-negative and
is zero only when the numerator is), and `static_cast<std::uint64_t>` of a
non-negative double truncates toward zero, i.e. is the floor. -/

/-- The one-shot calibration lambda in `TscToNanoseconds`: from the tick
readings `c0`, `c1` (`std::uint64_t`, so their difference wraps mod `2^64`)
and the elapsed wall time `ns` (a signed nanosecond count), compute
`ticks_per_ns = (c1 - c0) / ns` when `ns > 0` (0.0 otherwise), and
substitute 1.0 whenever the computed value is not strictly positive. -/
def calibrate (c0 c1 : Nat) (ns : Int) : ℚ :=
  let ticksPerNs : ℚ := if ns > 0 then (sub64 c1 c0 : ℚ) / (ns : ℚ) else 0
  if ticksPerNs ≤ 0 then 1 else ticksPerNs

/-- `TscToNanoseconds(tsc)` after calibration has published `ticksPerNs`:
returns 0 if the datum is not positive (a dead guard, see
`C8_calibration_positive`), otherwise `tsc / ticks_per_ns` truncated to an
unsigned integer. -/
def TscToNanoseconds (ticksPerNs : ℚ) (tsc : Nat) : Nat :=
  if ticksPerNs ≤ 0 then 0 else ⌊(tsc : ℚ) / ticksPerNs⌋₊

/-! ## Text formatting (`src/src/formatter.cpp`, `src/src/encoder.cpp`) -/

/-- One `appendf` call inside the format functions:
`vsnprintf(buffer + pos, capacity - pos, ...)` where `seg` is the rendered
output of the format string.  With size `n = capacity - pos ≥ 1`,
`vsnprintf` writes `min (seg.length) (n - 1)` bytes plus a terminating NUL
and returns `seg.length`; the source then applies its truncation policy
(`pos = capacity - 1`, NUL, stop) when the output did not fit. -/
def appendf (cap : Nat) (seg : List Nat) (pos : Nat) (b : Nat → Nat) :
    Bool × Nat × (Nat → Nat) :=
  if pos ≥ cap then (false, pos, b)
  else
    let written := seg.length
    let ncopy := min written (cap - pos - 1)
    let b1 := updateFn (writeBytes b pos (seg.take ncopy)) (pos + ncopy) 0
    if written ≥ cap - pos then (false, cap - 1, updateFn b1 (cap - 1) 0)
    else (true, pos + written, b1)

/-- Common body of `TextFormatter::FormatRecord` and `EncodeTextRecord`
(their sources are line-for-line identical except for `ts`, the value
printed in the leading `[...]` field).  `cap > 0` and a non-null buffer are
already checked by the callers. -/
def formatCore (ts : Nat) (rec : LogRecord) (b0 : Nat → Nat) (cap : Nat) :
    Nat × (Nat → Nat) :=
  let st0 : Nat × (Nat → Nat) := (0, b0)
  -- appendf("[%llu] [%s]", ts, LevelToString(record.level))
  let st1 := (appendf cap
    (strBytes ("[" ++ toString ts ++ "] [" ++ LevelToString rec.level ++ "]"))
    st0.1 st0.2).2
  -- appendf(" [tid=%llu]", record.thread_id)   [LOGGER_ENABLE_THREAD_ID]
  let st2 := (appendf cap
    (strBytes (" [tid=" ++ toString rec.threadId ++ "]")) st1.1 st1.2).2
  -- if (record.file && record.function) appendf(" %s:%d %s", file, line, function)
  let st3 := match rec.file, rec.function with
    | some f, some fn =>
        (appendf cap
          (strBytes (" " ++ f ++ ":" ++ toString rec.line ++ " " ++ fn)) st2.1 st2.2).2
    | _, _ => st2
  -- if (pos < capacity - 1) buffer[pos++] = ' '
  let st4 := if st3.1 < cap - 1 then (st3.1 + 1, updateFn st3.2 st3.1 32) else st3
  -- copy up to (capacity - 1 - pos) bytes of the message payload
  let st5 :=
    if rec.messageLength > 0 ∧ st4.1 < cap - 1 then
      let available := cap - 1 - st4.1
      let msgLen := if rec.messageLength > available then available else rec.messageLength
      (st4.1 + msgLen, writeBytes st4.2 st4.1 (bufBytes rec.message msgLen))
    else st4
  -- if (pos < capacity - 1) buffer[pos++] = '\n'
  let st6 := if st5.1 < cap - 1 then (st5.1 + 1, updateFn st5.2 st5.1 10) else st5
  -- buffer[pos] = '\0'; return pos
  (st6.1, updateFn st6.2 st6.1 0)

/-- `TextFormatter::FormatRecord(record, buffer, capacity)`: null /
zero-capacity guard, then the shared body printing the raw
`record.timestamp` in the leading field.  A null `char *buffer` is `none`. -/
def FormatRecord (rec : LogRecord) (buffer : Option (Nat → Nat)) (cap : Nat) :
    Nat × Option (Nat → Nat) :=
  match buffer with
  | none => (0, none)
  | some b =>
      if cap = 0 then (0, some b)
      else
        let r := formatCore rec.timestamp rec b cap
        (r.1, some r.2)

/-- `EncodeTextRecord(record, buffer, capacity)`: identical body, but the
leading field is `TscToNanoseconds(record.timestamp)` (`ticksPerNs` is the
process-wide calibration datum). -/
def EncodeTextRecord (ticksPerNs : ℚ) (rec : LogRecord)
    (buffer : Option (Nat → Nat)) (cap : Nat) : Nat × Option (Nat → Nat) :=
  match buffer with
  | none => (0, none)
  | some b =>
      if cap = 0 then (0, some b)
      else
        let r := formatCore (TscToNanoseconds ticksPerNs rec.timestamp) rec b cap
        (r.1, some r.2)

/-- The bytes of the line `TextFormatter::FormatRecord` emits into a fresh
zeroed buffer of the given capacity. -/
def formattedLine (rec : LogRecord) (cap : Nat) : List Nat :=
  let r := FormatRecord rec (some fun _ => 0) cap
  bufBytes (r.2.getD fun _ => 0) r.1

/-- The bytes of the line `EncodeTextRecord` emits into a fresh zeroed
buffer of the given capacity. -/
def encodedLine (ticksPerNs : ℚ) (rec : LogRecord) (cap : Nat) : List Nat :=
  let r := EncodeTextRecord ticksPerNs rec (some fun _ => 0) cap
  bufBytes (r.2.getD fun _ => 0) r.1

/-! ## Consumer worker (`src/include/consumer.h`)

The drain loop interacts with its environment through
* the ring (shared with the producer),
* the sink, modelled as the list of `Write`/`Flush` calls it receives,
* the atomic `is_running_` flag, whose successive loads are modelled by a
  list of booleans (the values the loads return); once `Stop` has stored
  `false` every later load returns `false`, which the model expresses by an
  exhausted list.

The loop itself is a fuel-indexed recursion; `fuel` bounds the number of
outer `while` iterations and is chosen large enough for each execution
considered. -/

/-- A call received by the `Sink` collaborator. -/
inductive SinkEvent where
  | write (bytes : List Nat) (len : Nat)
  | flush
deriving DecidableEq

/-- State local to the consumer thread: the ring (shared), the sink's
received calls, and the scratch formatting buffer. -/
structure ConsumerState where
  ring : RingState LogRecord
  events : List SinkEvent
  scratch : Nat → Nat

/-- `kScratchBufferSize = LOGGER_MAX_MESSAGE_SIZE + kFormattingOverhead`. -/
def kScratchBufferSize : Nat := LOGGER_MAX_MESSAGE_SIZE + 256

/-- One load of the atomic `is_running_` flag: the next queued value, or
`false` once the queue is exhausted (i.e. after `Stop` stored `false`). -/
def readFlag : List Bool → Bool × List Bool
  | [] => (false, [])
  | f :: fs => (f, fs)

/-- Result of the spin phase of the hybrid wait strategy. -/
inductive SpinOutcome where
  | shutdownSignal
  | found (rec : LogRecord)
  | noActivity

/-- The spin phase of `Consumer::Loop`: up to `i` iterations of
`LOGGER_CPU_RELAX()` (a no-op on program-visible state), each checking the
stop signal (`goto shutdown` when clear) and then attempting one
`TryPop`. -/
def spinWait (cap : Nat) : Nat → List Bool → ConsumerState →
    SpinOutcome × List Bool × ConsumerState
  | 0, flags, st => (.noActivity, flags, st)
  | i + 1, flags, st =>
      match readFlag flags with
      | (f, flags1) =>
        if f = false then (.shutdownSignal, flags1, st)
        else
          match tryPop cap st.ring with
          | (true, out, ring1) =>
              -- a popped slot always holds a constructed record
              -- (`ringRun_inv`); `defaultRecord` is never reached
              (.found (out.getD defaultRecord), flags1, { st with ring := ring1 })
          | (false, _, _) => spinWait cap i flags1 st

/-- `Consumer::Loop`: fast path (`TryPop` → format → `Write`), empty path
(`Flush`, spin, then either handle the found record, or re-check the flag
and sleep — the sleep has no program-visible effect), and the `shutdown`
epilogue (one final `Flush`). -/
def consumerLoop (cap : Nat) : Nat → List Bool → ConsumerState → ConsumerState
  | 0, _, st => st
  | fuel + 1, flags, st =>
      match readFlag flags with
      | (f, flags1) =>
        if f = false then
          -- while-condition failed: goto shutdown; sink_.Flush()
          { st with events := st.events ++ [.flush] }
        else
          match tryPop cap st.ring with
          | (true, out, ring1) =>
              let rec1 := out.getD defaultRecord
              let fr := FormatRecord rec1 (some st.scratch) kScratchBufferSize
              let scratch1 := fr.2.getD st.scratch
              consumerLoop cap fuel flags1
                { ring := ring1
                  events := st.events ++ [.write (bufBytes scratch1 fr.1) fr.1]
                  scratch := scratch1 }
          | (false, _, _) =>
              let stf : ConsumerState := { st with events := st.events ++ [.flush] }
              match spinWait cap LOGGER_BACKEND_SPIN_COUNT flags1 stf with
              | (.shutdownSignal, _, st2) =>
                  { st2 with events := st2.events ++ [.flush] }
              | (.found rec1, flags2, st2) =>
                  let fr := FormatRecord rec1 (some st2.scratch) kScratchBufferSize
                  let scratch1 := fr.2.getD st2.scratch
                  consumerLoop cap fuel flags2
                    { ring := st2.ring
                      events := st2.events ++ [.write (bufBytes scratch1 fr.1) fr.1]
                      scratch := scratch1 }
              | (.noActivity, flags2, st2) =>
                  match readFlag flags2 with
                  | (_, flags3) => consumerLoop cap fuel flags3 st2

/-! ## Producer facade (`src/include/logger.h`) -/

/-- `logger::LogResult`. -/
inductive LogResult where
  | Success
  | BufferFull
  | Error
deriving DecidableEq

/-- `Logger::PrepareRecord`: sets the level, samples the tick
(`internal::ReadTsc()` — the sampled value is the `tick` parameter), nulls
the source-location fields and captures the thread id; always succeeds.
The message fields are uninitialized stack memory in C++ (zeroed here);
every caller overwrites them before the record is pushed. -/
def PrepareRecord (level : Level) (tick tid : Nat) : LogRecord :=
  { level := level
    timestamp := tick
    messageLength := 0
    threadId := tid
    file := none
    function := none
    line := 0
    message := fun _ => 0 }

/-- `Logger::PushRecord`: one `TryPush`; `Success`, or `BufferFull` with the
record dropped (the diagnostic counter is outside the data path). -/
def PushRecord (cap : Nat) (rec : LogRecord) (ring : RingState LogRecord) :
    LogResult × RingState LogRecord :=
  let r := tryPush cap rec ring
  (if r.1 then .Success else .BufferFull, r.2)

/-- `Logger::LogImpl(level, message, file, line, function)`: null-message
guard, `PrepareRecord`, `SetMessage`, optional `SetSourceLocation` (only
when both pointers are non-null), `PushRecord`. -/
def LogImpl (cap : Nat) (level : Level) (tick tid : Nat)
    (message : Option (List Nat)) (file : Option String) (line : Int)
    (func : Option String) (ring : RingState LogRecord) :
    LogResult × RingState LogRecord :=
  match message with
  | none => (.Error, ring)
  | some msg =>
      let rec0 := PrepareRecord level tick tid
      let rec1 := (SetMessage rec0 (some msg)).1
      let rec2 := match file, func with
        | some f, some fn => SetSourceLocation rec1 (some f) line (some fn)
        | _, _ => rec1
      PushRecord cap rec2 ring

/-- `Logger::LogFormat(level, fmt, args...)`: `PrepareRecord`,
`FormatMessage`, `PushRecord`.  There is no null check on `fmt`:
`FormatMessage` maps a null `fmt` to the empty message and the record is
pushed regardless (`rendered` is the output of the format string, `none`
modelling a null `fmt`). -/
def LogFormat (cap : Nat) (level : Level) (tick tid : Nat)
    (rendered : Option (List Nat)) (ring : RingState LogRecord) :
    LogResult × RingState LogRecord :=
  let rec0 := PrepareRecord level tick tid
  let rec1 := (FormatMessage rec0 rendered).1
  PushRecord cap rec1 ring

/-! ## Consumer lifecycle (`Consumer::Start` / `Consumer::Stop`) -/

/-- Lifecycle state of a `Consumer`: the atomic `is_running_` flag together
with instrumentation counting the spawned worker threads and the joins
performed.  A `Consumer` is constructed with `is_running_ = false` and no
thread. -/
structure Lifecycle where
  running : Bool
  spawned : Nat
  joined : Nat

/-- `Consumer::Start`: `compare_exchange_strong(false → true)`; only the
call whose exchange succeeds spawns the worker thread. -/
def StartConsumer (s : Lifecycle) : Lifecycle :=
  if s.running = false then
    { running := true, spawned := s.spawned + 1, joined := s.joined }
  else s

/-- `Consumer::Stop`: `compare_exchange_strong(true → false)`; only the
call whose exchange succeeds joins the worker thread. -/
def StopConsumer (s : Lifecycle) : Lifecycle :=
  if s.running = true then
    { running := false, spawned := s.spawned, joined := s.joined + 1 }
  else s

/-! ## Concrete sample data for evaluations -/

/-- A concrete record — level `Info`, tick 5, thread id 7, message `"hi"` —
used to evaluate the formatter and the consumer loop at specific inputs. -/
def sampleRecord : LogRecord :=
  { level := .info
    timestamp := 5
    messageLength := 2
    threadId := 7
    file := none
    function := none
    line := 0
    message := fun i => if i = 0 then 104 else if i = 1 then 105 else 0 }

/-- The consumer-thread state right after one successful `TryPush` of
`sampleRecord` into an empty capacity-8 ring, with no sink calls yet. -/
def stateAfterOnePush : ConsumerState :=
  { ring := (tryPush (2 ^ 3) sampleRecord (initRing LogRecord)).2
    events := []
    scratch := fun _ => 0 }

/-! ## General lemmas -/

theorem updateFn_same (b : Nat → Nat) (i v : Nat) : updateFn b i v i = v := by
  simp [updateFn]

theorem updateFn_other (b : Nat → Nat) {i j : Nat} (v : Nat) (h : j ≠ i) :
    updateFn b i v j = b j := by
  simp [updateFn, h]

theorem writeBytes_frame (bytes : List Nat) (b : Nat → Nat) (pos i : Nat)
    (h : i < pos ∨ pos + bytes.length ≤ i) : writeBytes b pos bytes i = b i := by
  induction bytes generalizing b pos with
  | nil => rfl
  | cons x xs ih =>
      simp only [writeBytes]
      rw [ih]
      · apply updateFn_other
        simp only [List.length_cons] at h
        omega
      · simp only [List.length_cons] at h
        omega

theorem u64_pos : 0 < u64 := by
  simp [u64]

theorem sub64_lt (a b : Nat) : sub64 a b < u64 :=
  Nat.mod_lt _ u64_pos

theorem sub64_self (a : Nat) : sub64 a a = 0 := by
  simp only [sub64, u64]
  omega

theorem sub64_eq_zero_iff {a b : Nat} (ha : a < u64) (hb : b < u64) :
    sub64 a b = 0 ↔ a = b := by
  simp only [sub64, u64] at *
  omega

/-- Incrementing the minuend (with 64-bit wrap) increments the difference,
as long as the difference stays representable. -/
theorem sub64_succ_left {a b : Nat} (ha : a < u64) (hb : b < u64)
    (h : sub64 a b + 1 < u64) : sub64 ((a + 1) % u64) b = sub64 a b + 1 := by
  simp only [sub64, u64] at *
  omega

/-- Incrementing the subtrahend (with 64-bit wrap) decrements a nonzero
difference. -/
theorem sub64_succ_right {a b : Nat} (ha : a < u64) (hb : b < u64)
    (h : sub64 a b ≠ 0) : sub64 a ((b + 1) % u64) = sub64 a b - 1 := by
  simp only [sub64, u64] at *
  omega

/-- `b + (a - b) ≡ a` modulo `2^64`: the wrapping difference recovers the
minuend. -/
theorem add_sub64 {a b : Nat} (ha : a < u64) (hb : b < u64) :
    (b + sub64 a b) % u64 = a := by
  simp only [sub64, u64] at *
  omega

theorem ringInv_init (α : Type) (cap : Nat) : ringInv cap (initRing α, [], []) := by
  refine ⟨u64_pos, u64_pos, [], rfl, ?_, ?_, ?_⟩
  · simp [ringSize, initRing, sub64_self]
  · simp [ringSize, initRing, sub64_self]
  · intro j hj
    simp at hj


theorem ringStep_inv {α : Type} {k : Nat} (hk64 : k ≤ 64)
    (s : RingState α) (ps qs : List α) (op : RingOp α)
    (h : ringInv (2 ^ k) (s, ps, qs)) :
    ringInv (2 ^ k) (ringStep (2 ^ k) (s, ps, qs) op) := by
  obtain ⟨hw, hr, pending, hps, hlen, hocc, hslots⟩ := h
  dsimp only at hw hr hps hlen hocc hslots
  have hdvd : (2 : Nat) ^ k ∣ u64 := by
    simpa [u64] using pow_dvd_pow 2 hk64
  have hcaple : (2 : Nat) ^ k ≤ u64 := Nat.le_of_dvd u64_pos hdvd
  simp only [ringSize] at hlen hocc
  cases op with
  | push x =>
    by_cases hfull : sub64 s.writeIdx s.readIdx ≥ 2 ^ k - 1
    · have hstep : ringStep (2 ^ k) (s, ps, qs) (.push x) = (s, ps, qs) := by
        simp [ringStep, tryPush, hfull]
      rw [hstep]
      exact ⟨hw, hr, pending, hps, hlen, hocc, hslots⟩
    · have hofl : sub64 s.writeIdx s.readIdx < 2 ^ k - 1 := Nat.lt_of_not_le hfull
      have hstep : ringStep (2 ^ k) (s, ps, qs) (.push x) =
          ({ writeIdx := (s.writeIdx + 1) % u64
             readIdx := s.readIdx
             storage := fun i => if i = s.writeIdx &&& (2 ^ k - 1) then some x
                                 else s.storage i },
           ps ++ [x], qs) := by
        simp [ringStep, tryPush, hfull]
      rw [hstep]
      have hsucc : sub64 ((s.writeIdx + 1) % u64) s.readIdx
          = sub64 s.writeIdx s.readIdx + 1 :=
        sub64_succ_left hw hr (by omega)
      have hmask : s.writeIdx &&& (2 ^ k - 1) = s.writeIdx % 2 ^ k :=
        Nat.and_pow_two_sub_one_eq_mod s.writeIdx k
      have hwr : (s.readIdx + sub64 s.writeIdx s.readIdx) % u64 = s.writeIdx :=
        add_sub64 hw hr
      have hwcap : s.writeIdx % 2 ^ k
          = (s.readIdx + sub64 s.writeIdx s.readIdx) % 2 ^ k := by
        conv_lhs => rw [← hwr]
        exact Nat.mod_mod_of_dvd _ hdvd
      refine ⟨Nat.mod_lt _ u64_pos, hr, pending ++ [x], ?_, ?_, ?_, ?_⟩
      · dsimp only
        rw [hps, List.append_assoc]
      · dsimp only [ringSize]
        simp only [List.length_append, List.length_singleton, hsucc]
        omega
      · dsimp only [ringSize]
        rw [hsucc]
        omega
      · intro j hj
        dsimp only at hj ⊢
        simp only [List.length_append, List.length_singleton] at hj
        rcases Nat.lt_or_ge j pending.length with hjlt | hjge
        · have hne : (s.readIdx + j) % 2 ^ k ≠ s.writeIdx &&& (2 ^ k - 1) := by
            rw [hmask, hwcap]
            intro heq
            have hmodeq : Nat.ModEq (2 ^ k) j (sub64 s.writeIdx s.readIdx) :=
              Nat.ModEq.add_left_cancel' s.readIdx heq
            unfold Nat.ModEq at hmodeq
            have hj' : j % 2 ^ k = j := Nat.mod_eq_of_lt (by omega)
            have ho' : sub64 s.writeIdx s.readIdx % 2 ^ k = sub64 s.writeIdx s.readIdx :=
              Nat.mod_eq_of_lt (by omega)
            omega
          rw [if_neg hne, List.getElem?_append_left hjlt]
          exact hslots j hjlt
        · have hj' : j = pending.length := by omega
          subst hj'
          have heq : (s.readIdx + pending.length) % 2 ^ k
              = s.writeIdx &&& (2 ^ k - 1) := by
            rw [hmask, hwcap, hlen]
          rw [if_pos heq, List.getElem?_concat_length]
  | pop =>
    by_cases hempty : s.readIdx = s.writeIdx
    · have hstep : ringStep (2 ^ k) (s, ps, qs) .pop = (s, ps, qs) := by
        simp [ringStep, tryPop, hempty]
      rw [hstep]
      exact ⟨hw, hr, pending, hps, hlen, hocc, hslots⟩
    · have hocc0 : sub64 s.writeIdx s.readIdx ≠ 0 := by
        intro h0
        exact hempty ((sub64_eq_zero_iff hw hr).mp h0).symm
      cases pending with
      | nil =>
        exfalso
        simp only [List.length_nil] at hlen
        exact hocc0 hlen.symm
      | cons p0 rest =>
        have hmask : s.readIdx &&& (2 ^ k - 1) = s.readIdx % 2 ^ k :=
          Nat.and_pow_two_sub_one_eq_mod s.readIdx k
        have hout : s.storage (s.readIdx % 2 ^ k) = some p0 := by
          have h0 := hslots 0 (by simp)
          simpa using h0
        have hstep : ringStep (2 ^ k) (s, ps, qs) .pop =
            ({ writeIdx := s.writeIdx
               readIdx := (s.readIdx + 1) % u64
               storage := fun i => if i = s.readIdx &&& (2 ^ k - 1) then none
                                   else s.storage i },
             ps, qs ++ [p0]) := by
          simp [ringStep, tryPop, hempty, hmask, hout]
        rw [hstep]
        have hsucc : sub64 s.writeIdx ((s.readIdx + 1) % u64)
            = sub64 s.writeIdx s.readIdx - 1 :=
          sub64_succ_right hw hr hocc0
        refine ⟨hw, Nat.mod_lt _ u64_pos, rest, ?_, ?_, ?_, ?_⟩
        · dsimp only
          rw [hps]
          simp
        · dsimp only [ringSize]
          rw [hsucc]
          simp only [List.length_cons] at hlen
          omega
        · dsimp only [ringSize]
          rw [hsucc]
          omega
        · intro j hj
          dsimp only at hj ⊢
          have hjocc : 1 + j < sub64 s.writeIdx s.readIdx := by
            simp only [List.length_cons] at hlen
            omega
          have hidx : ((s.readIdx + 1) % u64 + j) % 2 ^ k
              = (s.readIdx + (1 + j)) % 2 ^ k := by
            have h1 : Nat.ModEq (2 ^ k) ((s.readIdx + 1) % u64) (s.readIdx + 1) :=
              Nat.mod_mod_of_dvd _ hdvd
            have h2 := h1.add_right j
            unfold Nat.ModEq at h2
            rw [h2]
            congr 1
            omega
          have hne : (s.readIdx + (1 + j)) % 2 ^ k ≠ s.readIdx &&& (2 ^ k - 1) := by
            rw [hmask]
            intro heq
            have heq' : (s.readIdx + (1 + j)) % 2 ^ k = (s.readIdx + 0) % 2 ^ k := by
              simpa using heq
            have hmodeq : Nat.ModEq (2 ^ k) (1 + j) 0 :=
              Nat.ModEq.add_left_cancel' s.readIdx heq'
            unfold Nat.ModEq at hmodeq
            rw [Nat.zero_mod] at hmodeq
            have h1j : (1 + j) % 2 ^ k = 1 + j := Nat.mod_eq_of_lt (by omega)
            omega
          rw [hidx, if_neg hne]
          have hlt : 1 + j < (p0 :: rest).length := by
            simp only [List.length_cons]
            simp only [List.length_cons] at hlen
            omega
          have hst := hslots (1 + j) hlt
          rw [hst, Nat.add_comm 1 j]
          exact List.getElem?_cons_succ

theorem ringRun_inv {α : Type} {k : Nat} (hk64 : k ≤ 64) (ops : List (RingOp α)) :
    ringInv (2 ^ k) (ringRun (2 ^ k) ops) := by
  suffices h : ∀ acc, ringInv (2 ^ k) acc →
      ringInv (2 ^ k) (ops.foldl (ringStep (2 ^ k)) acc) from
    h _ (ringInv_init α (2 ^ k))
  induction ops with
  | nil =>
      intro acc hacc
      exact hacc
  | cons op ops ih =>
      intro acc hacc
      obtain ⟨s, ps, qs⟩ := acc
      exact ih _ (ringStep_inv hk64 s ps qs op hacc)

/-- Bounds satisfied by every reachable ring state: both indices are 64-bit
values and the occupancy is at most `cap - 1`. -/
theorem reachable_bounds {α : Type} {k : Nat} (hk64 : k ≤ 64) (s : RingState α)
    (h : Reachable (2 ^ k) s) :
    s.writeIdx < u64 ∧ s.readIdx < u64 ∧ ringSize s ≤ 2 ^ k - 1 := by
  obtain ⟨ops, hops⟩ := h
  obtain ⟨hw, hr, _pending, _, _, hocc, _⟩ := ringRun_inv hk64 ops
  rw [hops] at hw hr hocc
  exact ⟨hw, hr, hocc⟩


/-! ## Claims C4, C5, C6 — ring buffer -/

/-- Claim C4: in every state reachable from the empty ring by
`TryPush`/`TryPop` operations, `TryPush` returns false iff
`write_idx - read_idx = capacity - 1` at the moment of its check, `TryPop`
returns false iff `write_idx = read_idx` at the moment of its check, and a
failing `TryPush` or `TryPop` leaves the indices and every slot
unchanged. -/
theorem C4_no_spurious_failure {α : Type} {k : Nat} (_hk1 : 1 ≤ k) (hk64 : k ≤ 64)
    (x : α) (s : RingState α) (h : Reachable (2 ^ k) s) :
    ((tryPush (2 ^ k) x s).1 = false ↔ sub64 s.writeIdx s.readIdx = 2 ^ k - 1) ∧
    ((tryPush (2 ^ k) x s).1 = false → (tryPush (2 ^ k) x s).2 = s) ∧
    ((tryPop (2 ^ k) s).1 = false ↔ s.writeIdx = s.readIdx) ∧
    ((tryPop (2 ^ k) s).1 = false → (tryPop (2 ^ k) s).2.2 = s) := by
  obtain ⟨_hw, _hr, hocc⟩ := reachable_bounds hk64 s h
  simp only [ringSize] at hocc
  refine ⟨?_, ?_, ?_, ?_⟩
  · by_cases hfull : sub64 s.writeIdx s.readIdx ≥ 2 ^ k - 1
    · have heq : sub64 s.writeIdx s.readIdx = 2 ^ k - 1 := by omega
      simp [tryPush, hfull, heq]
    · have hne : sub64 s.writeIdx s.readIdx ≠ 2 ^ k - 1 := by omega
      simp [tryPush, hfull, hne]
  · intro hfail
    by_cases hfull : sub64 s.writeIdx s.readIdx ≥ 2 ^ k - 1
    · simp [tryPush, hfull]
    · simp [tryPush, hfull] at hfail
  · by_cases hempty : s.readIdx = s.writeIdx
    · simp [tryPop, hempty]
    · have hne : s.writeIdx ≠ s.readIdx := fun heq => hempty heq.symm
      simp [tryPop, hempty, hne]
  · intro hfail
    by_cases hempty : s.readIdx = s.writeIdx
    · simp [tryPop, hempty]
    · simp [tryPop, hempty] at hfail

theorem C4_no_spurious_failure_witness :
    ((tryPush (2 ^ 3) 0 (ringRun (2 ^ 3) [RingOp.push 5]).1).1 = false ↔
      sub64 (ringRun (2 ^ 3) [RingOp.push 5]).1.writeIdx
        (ringRun (2 ^ 3) [RingOp.push 5]).1.readIdx = 2 ^ 3 - 1) ∧
    ((tryPush (2 ^ 3) 0 (ringRun (2 ^ 3) [RingOp.push 5]).1).1 = false →
      (tryPush (2 ^ 3) 0 (ringRun (2 ^ 3) [RingOp.push 5]).1).2
        = (ringRun (2 ^ 3) [RingOp.push 5]).1) ∧
    ((tryPop (2 ^ 3) (ringRun (2 ^ 3) [RingOp.push 5]).1).1 = false ↔
      (ringRun (2 ^ 3) [RingOp.push 5]).1.writeIdx
        = (ringRun (2 ^ 3) [RingOp.push 5]).1.readIdx) ∧
    ((tryPop (2 ^ 3) (ringRun (2 ^ 3) [RingOp.push 5]).1).1 = false →
      (tryPop (2 ^ 3) (ringRun (2 ^ 3) [RingOp.push 5]).1).2.2
        = (ringRun (2 ^ 3) [RingOp.push 5]).1) :=
  C4_no_spurious_failure (by norm_num) (by norm_num) 0
    (ringRun (2 ^ 3) [RingOp.push 5]).1 ⟨[RingOp.push 5], rfl⟩

/-- Claim C5: for every sequence of interleaved `TryPush`/`TryPop`
operations starting from the empty ring (wrap-around included), the
successful pops return exactly the successfully pushed elements in push
order: the list of popped elements is a prefix of the list of successfully
pushed elements. -/
theorem C5_fifo_order {α : Type} {k : Nat} (_hk1 : 1 ≤ k) (hk64 : k ≤ 64)
    (ops : List (RingOp α)) :
    (ringRun (2 ^ k) ops).2.2 <+: (ringRun (2 ^ k) ops).2.1 := by
  obtain ⟨_, _, pending, hps, _, _, _⟩ := ringRun_inv hk64 ops
  exact ⟨pending, hps.symm⟩

theorem C5_fifo_order_witness :
    (ringRun (2 ^ 2) [RingOp.push 10, .push 11, .push 12, .pop, .pop,
      .push 13, .push 14, .pop, .pop, .pop]).2.2 <+:
    (ringRun (2 ^ 2) [RingOp.push 10, .push 11, .push 12, .pop, .pop,
      .push 13, .push 14, .pop, .pop, .pop]).2.1 :=
  C5_fifo_order (by norm_num) (by norm_num) _

/-- Claim C6: in every state reachable from the empty ring, the occupancy
`write_idx - read_idx` computed in unsigned 64-bit arithmetic lies in
`[0, capacity - 1]` — the model stores both indices and takes their
difference modulo `2^64`, so this covers index wrap-around. -/
theorem C6_occupancy_in_range {α : Type} {k : Nat} (_hk1 : 1 ≤ k) (hk64 : k ≤ 64)
    (s : RingState α) (h : Reachable (2 ^ k) s) :
    sub64 s.writeIdx s.readIdx ≤ 2 ^ k - 1 :=
  (reachable_bounds hk64 s h).2.2

theorem C6_occupancy_in_range_witness :
    sub64 (ringRun (2 ^ 3) [RingOp.push 1, RingOp.push 2, RingOp.pop]).1.writeIdx
      (ringRun (2 ^ 3) [RingOp.push 1, RingOp.push 2, RingOp.pop]).1.readIdx
      ≤ 2 ^ 3 - 1 :=
  C6_occupancy_in_range (by norm_num) (by norm_num)
    (ringRun (2 ^ 3) [RingOp.push 1, RingOp.push 2, RingOp.pop]).1
    ⟨[RingOp.push 1, RingOp.push 2, RingOp.pop], rfl⟩

/-! ## Claim C7 — `SetMessage` truncation -/

theorem writeBytes_read (bytes : List Nat) (b : Nat → Nat) (pos j : Nat)
    (hj : j < bytes.length) : writeBytes b pos bytes (pos + j) = bytes.getD j 0 := by
  induction bytes generalizing b pos j with
  | nil => simp at hj
  | cons x xs ih =>
      cases j with
      | zero =>
          simp only [writeBytes, List.getD_cons_zero]
          rw [writeBytes_frame]
          · simpa using updateFn_same b pos x
          · left
            omega
      | succ j =>
          simp only [writeBytes, List.getD_cons_succ]
          have harith : pos + (j + 1) = (pos + 1) + j := by omega
          rw [harith, ih _ _ _ (by simpa using hj)]

theorem bufBytes_eq (b : Nat → Nat) (n : Nat) (l : List Nat) (hlen : l.length = n)
    (h : ∀ j, j < n → b j = l.getD j 0) : bufBytes b n = l := by
  apply List.ext_getElem
  · simp [bufBytes, hlen]
  · intro i h1 h2
    simp only [bufBytes, List.getElem_map, List.getElem_range]
    rw [h i (by simpa [bufBytes] using h1)]
    exact List.getD_eq_getElem l 0 h2

/-- Claim C7: for every non-null input, after `SetMessage` the record has
`message_length < MAX_MESSAGE_SIZE` and `message[message_length] = 0`;
input of length at most `MAX_MESSAGE_SIZE - 1` is stored verbatim, longer
input is silently truncated to exactly its first `MAX_MESSAGE_SIZE - 1`
bytes with `message_length = MAX_MESSAGE_SIZE - 1`. -/
theorem C7_set_message (rec : LogRecord) (msg : List Nat) :
    (SetMessage rec (some msg)).1.messageLength < LOGGER_MAX_MESSAGE_SIZE ∧
    (SetMessage rec (some msg)).1.message (SetMessage rec (some msg)).1.messageLength = 0 ∧
    (msg.length ≤ LOGGER_MAX_MESSAGE_SIZE - 1 →
      (SetMessage rec (some msg)).1.messageLength = msg.length ∧
      bufBytes (SetMessage rec (some msg)).1.message msg.length = msg) ∧
    (msg.length > LOGGER_MAX_MESSAGE_SIZE - 1 →
      (SetMessage rec (some msg)).1.messageLength = LOGGER_MAX_MESSAGE_SIZE - 1 ∧
      bufBytes (SetMessage rec (some msg)).1.message (LOGGER_MAX_MESSAGE_SIZE - 1)
        = msg.take (LOGGER_MAX_MESSAGE_SIZE - 1)) := by
  simp only [SetMessage]
  set len := if msg.length ≥ LOGGER_MAX_MESSAGE_SIZE
             then LOGGER_MAX_MESSAGE_SIZE - 1 else msg.length with hlendef
  have hM : LOGGER_MAX_MESSAGE_SIZE = 1024 := rfl
  have hlenle : len ≤ msg.length ∧ len ≤ LOGGER_MAX_MESSAGE_SIZE - 1 := by
    rw [hlendef]
    split <;> omega
  have hcore : bufBytes
      (updateFn (writeBytes rec.message 0 (msg.take len)) len 0) len = msg.take len := by
    apply bufBytes_eq
    · simp
      omega
    · intro j hj
      rw [updateFn_other _ _ (by omega : j ≠ len)]
      have hr := writeBytes_read (msg.take len) rec.message 0 j (by simp; omega)
      simpa using hr
  refine ⟨by omega, ?_, ?_, ?_⟩
  · exact updateFn_same _ len 0
  · intro hshort
    have hlen : len = msg.length := by
      rw [hlendef]
      split <;> omega
    rw [hlen] at hcore ⊢
    exact ⟨rfl, by simpa using hcore⟩
  · intro hlong
    have hlen : len = LOGGER_MAX_MESSAGE_SIZE - 1 := by
      rw [hlendef]
      split <;> omega
    rw [hlen] at hcore ⊢
    exact ⟨rfl, hcore⟩

theorem C7_set_message_witness :
    (SetMessage defaultRecord (some [104, 105])).1.messageLength < LOGGER_MAX_MESSAGE_SIZE ∧
    (SetMessage defaultRecord (some [104, 105])).1.messageLength = 2 ∧
    bufBytes (SetMessage defaultRecord (some [104, 105])).1.message 2 = [104, 105] := by
  have h := C7_set_message defaultRecord [104, 105]
  have h2 := h.2.2.1 (by norm_num [LOGGER_MAX_MESSAGE_SIZE])
  exact ⟨h.1, by simpa using h2.1, by simpa using h2.2⟩

/-! ## Claim C8 — clock calibration -/

/-- Claim C8: the published calibration datum is strictly positive for every
possible pair of calibration readings (1.0 is substituted whenever the
computed quotient is not strictly positive, including a zero or negative
elapsed time), and with it every subsequent conversion equals
`tick / ticks_per_ns` truncated to an unsigned integer. -/
theorem C8_calibration (c0 c1 : Nat) (ns : Int) (tsc : Nat) :
    0 < calibrate c0 c1 ns ∧
    TscToNanoseconds (calibrate c0 c1 ns) tsc = ⌊(tsc : ℚ) / calibrate c0 c1 ns⌋₊ := by
  have hpos : 0 < calibrate c0 c1 ns := by
    simp only [calibrate]
    set t : ℚ := if ns > 0 then ((sub64 c1 c0 : Nat) : ℚ) / (ns : ℚ) else 0 with ht
    by_cases hle : t ≤ 0
    · rw [if_pos hle]
      norm_num
    · rw [if_neg hle]
      exact lt_of_not_le hle
  refine ⟨hpos, ?_⟩
  simp only [TscToNanoseconds]
  rw [if_neg (not_le.mpr hpos)]

/-! ## Claim C9 — idempotent lifecycle -/

theorem startConsumer_running (s : Lifecycle) : (StartConsumer s).running = true := by
  cases hb : s.running <;> simp [StartConsumer, hb]

theorem stopConsumer_running (s : Lifecycle) : (StopConsumer s).running = false := by
  cases hb : s.running <;> simp [StopConsumer, hb]

theorem startConsumer_fix (s : Lifecycle) (h : s.running = true) : StartConsumer s = s := by
  simp [StartConsumer, h]

theorem stopConsumer_fix (s : Lifecycle) (h : s.running = false) : StopConsumer s = s := by
  simp [StopConsumer, h]

theorem startConsumer_iterate_fix (n : Nat) (s : Lifecycle) (h : s.running = true) :
    StartConsumer^[n] s = s := by
  induction n with
  | zero => rfl
  | succ n ih =>
      rw [Function.iterate_succ_apply, startConsumer_fix s h]
      exact ih

theorem stopConsumer_iterate_fix (n : Nat) (s : Lifecycle) (h : s.running = false) :
    StopConsumer^[n] s = s := by
  induction n with
  | zero => rfl
  | succ n ih =>
      rw [Function.iterate_succ_apply, stopConsumer_fix s h]
      exact ih

/-- Claim C9: the lifecycle is idempotent — `n` consecutive `Start` calls
spawn at most one worker thread and `n` consecutive `Stop` calls join at
most once; only the call that transitions the `running` flag performs the
spawn (respectively the join), the others leave the state unchanged. -/
theorem C9_idempotent_lifecycle (s : Lifecycle) (n : Nat) :
    (StartConsumer^[n] s).spawned ≤ s.spawned + 1 ∧
    (StopConsumer^[n] s).joined ≤ s.joined + 1 ∧
    (s.running = true → StartConsumer s = s) ∧
    (s.running = false → StopConsumer s = s) := by
  refine ⟨?_, ?_, startConsumer_fix s, stopConsumer_fix s⟩
  · cases n with
    | zero =>
        simp
    | succ n =>
        rw [Function.iterate_succ_apply,
            startConsumer_iterate_fix n _ (startConsumer_running s)]
        cases hb : s.running <;> simp [StartConsumer, hb]
  · cases n with
    | zero =>
        simp
    | succ n =>
        rw [Function.iterate_succ_apply,
            stopConsumer_iterate_fix n _ (stopConsumer_running s)]
        cases hb : s.running <;> simp [StopConsumer, hb]

theorem C9_idempotent_lifecycle_witness :
    (StartConsumer^[3] ⟨false, 0, 0⟩).spawned ≤ 0 + 1 ∧
    StopConsumer ⟨false, 0, 0⟩ = ⟨false, 0, 0⟩ := by
  have h := C9_idempotent_lifecycle ⟨false, 0, 0⟩ 3
  exact ⟨h.1, h.2.2.2 rfl⟩

/-! ## Claim C3 — null message / null format -/

/-- Claim C3 counterexample: `LogFormat` with a null format pointer does
NOT return `Error` as the claim states — on an empty capacity-8 ring it
returns `Success` and pushes a record (with empty message) into the ring. -/
theorem C3_counterexample :
    (LogFormat (2 ^ 3) Level.info 0 0 none (initRing LogRecord)).1 = LogResult.Success ∧
    ringSize (LogFormat (2 ^ 3) Level.info 0 0 none (initRing LogRecord)).2 = 1 := by
  constructor
  · decide
  · decide

/-- Claim C3 (amended): `Log` with a null message pointer returns `Error`
without pushing any record; `LogFormat` with a null format pointer does not
return `Error` — `FormatMessage` turns the null format into the empty
message (`message_length = 0`) and the record is pushed as usual
(`Success`, or `BufferFull` when the ring is full). -/
theorem C3_null_inputs (cap : Nat) (level : Level) (tick tid : Nat)
    (file : Option String) (line : Int) (func : Option String)
    (ring : RingState LogRecord) :
    LogImpl cap level tick tid none file line func ring = (LogResult.Error, ring) ∧
    (LogFormat cap level tick tid none ring).1 ≠ LogResult.Error ∧
    (FormatMessage (PrepareRecord level tick tid) none).1.messageLength = 0 := by
  refine ⟨rfl, ?_, rfl⟩
  simp only [LogFormat, PushRecord]
  cases h : (tryPush cap (FormatMessage (PrepareRecord level tick tid) none).1 ring).1 <;>
    simp [h]

theorem C3_null_inputs_witness :
    LogImpl (2 ^ 3) Level.warn 3 4 none none 0 none (initRing LogRecord)
      = (LogResult.Error, initRing LogRecord) ∧
    (LogFormat (2 ^ 3) Level.warn 3 4 none (initRing LogRecord)).1 ≠ LogResult.Error := by
  have h := C3_null_inputs (2 ^ 3) Level.warn 3 4 none 0 none (initRing LogRecord)
  exact ⟨h.1, h.2.1⟩

/-! ## Claim C2 — timestamp conversion in the emitted line -/

/-- Claim C2: the line emitted by the bundled text formatter
(`TextFormatter::FormatRecord`) does NOT begin with the tick converted to
nanoseconds — it prints the raw tick.  With calibration readings giving
`ticks_per_ns = 2` and a record whose tick is 5, the emitted line is
`"[5] [INFO] [tid=7] hi\n"` while the converted timestamp is 2; the
conversion exists only in `EncodeTextRecord` (`src/src/encoder.cpp`), which
the consumer does not invoke. -/
theorem C2_formatter_prints_raw_tick :
    formattedLine sampleRecord 64 = strBytes "[5] [INFO] [tid=7] hi\n" ∧
    TscToNanoseconds (calibrate 0 2000000 1000000) 5 = 2 ∧
    ((strBytes "[2]").isPrefixOf (formattedLine sampleRecord 64) = false ∧
     (strBytes "[5]").isPrefixOf (formattedLine sampleRecord 64) = true) ∧
    (strBytes "[2]").isPrefixOf
      (encodedLine (calibrate 0 2000000 1000000) sampleRecord 64) = true := by
  have hcal : calibrate 0 2000000 1000000 = 2 := by
    norm_num [calibrate, sub64, u64]
  have hconv : TscToNanoseconds 2 5 = 2 := by
    simp only [TscToNanoseconds]
    rw [if_neg (by norm_num)]
    rw [Nat.floor_eq_iff (by norm_num)]
    norm_num
  refine ⟨by decide, by rw [hcal]; exact hconv, ⟨by decide, by decide⟩, ?_⟩
  rw [hcal]
  simp only [encodedLine, EncodeTextRecord]
  rw [if_neg (by norm_num : ¬(64 : Nat) = 0)]
  have hts : sampleRecord.timestamp = 5 := rfl
  rw [hts, hconv]
  decide

/-! ## Claim C1 — stop does not drain -/

/-- Claim C1: `Stop` does NOT drain remaining records.  `Consumer::Stop`
stores `false` into `is_running_` and joins; once every load of the flag
returns `false` (exhausted flag list), the drain loop exits at its next
`while`-check and performs only the final `Flush` — a record pushed but not
yet consumed receives no `Write` and remains in the ring after `Stop`
returns.  (`logger.h`'s `Stop` comment — "This will flush any remaining
logs in the buffer" — and the spec promise that stop drains are both
violated.) -/
theorem C1_stop_does_not_drain :
    (tryPush (2 ^ 3) sampleRecord (initRing LogRecord)).1 = true ∧
    (consumerLoop (2 ^ 3) 5 [] stateAfterOnePush).events = [SinkEvent.flush] ∧
    ringSize (consumerLoop (2 ^ 3) 5 [] stateAfterOnePush).ring = 1 ∧
    StopConsumer ⟨true, 1, 0⟩ = ⟨false, 1, 1⟩ := by
  refine ⟨by decide, by decide, by decide, rfl⟩

/-! ## Claim C10 — formatter memory safety -/

/-- `appendf` keeps the position at most `capacity - 1` and never touches a
byte at or beyond `capacity`. -/
theorem appendf_safety (cap : Nat) (seg : List Nat) (pos : Nat) (b : Nat → Nat)
    (hcap : 0 < cap) (hpos : pos ≤ cap - 1) :
    (appendf cap seg pos b).2.1 ≤ cap - 1 ∧
    ∀ i, cap ≤ i → (appendf cap seg pos b).2.2 i = b i := by
  simp only [appendf]
  rw [if_neg (by omega : ¬ pos ≥ cap)]
  by_cases hbig : seg.length ≥ cap - pos
  · rw [if_pos hbig]
    refine ⟨by dsimp only; omega, ?_⟩
    intro i hi
    dsimp only
    simp only [updateFn, List.length_take]
    rw [if_neg (by omega : ¬ i = cap - 1),
        if_neg (by omega : ¬ i = pos + min seg.length (cap - pos - 1))]
    apply writeBytes_frame
    right
    simp only [List.length_take]
    omega
  · rw [if_neg hbig]
    refine ⟨by dsimp only; omega, ?_⟩
    intro i hi
    dsimp only
    simp only [updateFn, List.length_take]
    rw [if_neg (by omega : ¬ i = pos + min seg.length (cap - pos - 1))]
    apply writeBytes_frame
    right
    simp only [List.length_take]
    omega

/-- The single-character phases (`buffer[pos++] = ' '` and
`buffer[pos++] = '\n'`) keep the position at most `capacity - 1` and never
touch a byte at or beyond `capacity`. -/
theorem charPhase_safety (cap ch : Nat) (st : Nat × (Nat → Nat)) (b0 : Nat → Nat)
    (h1 : st.1 ≤ cap - 1) (h2 : ∀ i, cap ≤ i → st.2 i = b0 i) :
    (if st.1 < cap - 1 then (st.1 + 1, updateFn st.2 st.1 ch) else st).1 ≤ cap - 1 ∧
    ∀ i, cap ≤ i →
      (if st.1 < cap - 1 then (st.1 + 1, updateFn st.2 st.1 ch) else st).2 i = b0 i := by
  split
  · next hlt =>
      refine ⟨by dsimp only; omega, ?_⟩
      intro i hi
      dsimp only
      simp only [updateFn]
      rw [if_neg (by omega : ¬ i = st.1)]
      exact h2 i hi
  · exact ⟨h1, h2⟩

/-- The message-payload copy phase keeps the position at most
`capacity - 1` and never touches a byte at or beyond `capacity`. -/
theorem msgPhase_safety (cap : Nat) (rec : LogRecord) (st : Nat × (Nat → Nat))
    (b0 : Nat → Nat) (h1 : st.1 ≤ cap - 1) (h2 : ∀ i, cap ≤ i → st.2 i = b0 i) :
    (if rec.messageLength > 0 ∧ st.1 < cap - 1 then
       (st.1 + (if rec.messageLength > cap - 1 - st.1 then cap - 1 - st.1
                else rec.messageLength),
        writeBytes st.2 st.1 (bufBytes rec.message
          (if rec.messageLength > cap - 1 - st.1 then cap - 1 - st.1
           else rec.messageLength)))
     else st).1 ≤ cap - 1 ∧
    ∀ i, cap ≤ i →
      (if rec.messageLength > 0 ∧ st.1 < cap - 1 then
         (st.1 + (if rec.messageLength > cap - 1 - st.1 then cap - 1 - st.1
                  else rec.messageLength),
          writeBytes st.2 st.1 (bufBytes rec.message
            (if rec.messageLength > cap - 1 - st.1 then cap - 1 - st.1
             else rec.messageLength)))
       else st).2 i = b0 i := by
  split
  · next hcond =>
      have hmsglen : (if rec.messageLength > cap - 1 - st.1 then cap - 1 - st.1
          else rec.messageLength) ≤ cap - 1 - st.1 := by
        split <;> omega
      refine ⟨by dsimp only; omega, ?_⟩
      intro i hi
      dsimp only
      rw [writeBytes_frame]
      · exact h2 i hi
      · right
        simp only [bufBytes, List.length_map, List.length_range]
        omega
  · exact ⟨h1, h2⟩

/-- Safety of the shared format body: the returned length is at most
`capacity - 1`, no byte at or beyond `capacity` is modified, and the byte
at the returned position is 0. -/
theorem formatCore_safety (ts : Nat) (rec : LogRecord) (b0 : Nat → Nat) (cap : Nat)
    (hcap : 0 < cap) :
    (formatCore ts rec b0 cap).1 ≤ cap - 1 ∧
    (∀ i, cap ≤ i → (formatCore ts rec b0 cap).2 i = b0 i) ∧
    (formatCore ts rec b0 cap).2 (formatCore ts rec b0 cap).1 = 0 := by
  simp only [formatCore]
  set s1 : List Nat :=
    strBytes ("[" ++ toString ts ++ "] [" ++ LevelToString rec.level ++ "]") with hs1
  set st1 : Nat × (Nat → Nat) := (appendf cap s1 0 b0).2 with hst1
  have h1 : st1.1 ≤ cap - 1 ∧ ∀ i, cap ≤ i → st1.2 i = b0 i := by
    rw [hst1]
    exact appendf_safety cap s1 0 b0 hcap (by omega)
  set s2 : List Nat := strBytes (" [tid=" ++ toString rec.threadId ++ "]") with hs2
  set st2 : Nat × (Nat → Nat) := (appendf cap s2 st1.1 st1.2).2 with hst2
  have h2 : st2.1 ≤ cap - 1 ∧ ∀ i, cap ≤ i → st2.2 i = b0 i := by
    rw [hst2]
    obtain ⟨g1, g2⟩ := appendf_safety cap s2 st1.1 st1.2 hcap h1.1
    exact ⟨g1, fun i hi => (g2 i hi).trans (h1.2 i hi)⟩
  set st3 : Nat × (Nat → Nat) :=
    (match rec.file, rec.function with
     | some f, some fn =>
         (appendf cap
           (strBytes (" " ++ f ++ ":" ++ toString rec.line ++ " " ++ fn)) st2.1 st2.2).2
     | _, _ => st2) with hst3
  have h3 : st3.1 ≤ cap - 1 ∧ ∀ i, cap ≤ i → st3.2 i = b0 i := by
    rw [hst3]
    rcases hf : rec.file with _ | f
    · exact h2
    · rcases hfn : rec.function with _ | fn
      · exact h2
      · obtain ⟨g1, g2⟩ := appendf_safety cap
          (strBytes (" " ++ f ++ ":" ++ toString rec.line ++ " " ++ fn)) st2.1 st2.2 hcap h2.1
        exact ⟨g1, fun i hi => (g2 i hi).trans (h2.2 i hi)⟩
  set st4 : Nat × (Nat → Nat) :=
    (if st3.1 < cap - 1 then (st3.1 + 1, updateFn st3.2 st3.1 32) else st3) with hst4
  have h4 : st4.1 ≤ cap - 1 ∧ ∀ i, cap ≤ i → st4.2 i = b0 i := by
    rw [hst4]
    exact charPhase_safety cap 32 st3 b0 h3.1 h3.2
  set st5 : Nat × (Nat → Nat) :=
    (if rec.messageLength > 0 ∧ st4.1 < cap - 1 then
       (st4.1 + (if rec.messageLength > cap - 1 - st4.1 then cap - 1 - st4.1
                 else rec.messageLength),
        writeBytes st4.2 st4.1 (bufBytes rec.message
          (if rec.messageLength > cap - 1 - st4.1 then cap - 1 - st4.1
           else rec.messageLength)))
     else st4) with hst5
  have h5 : st5.1 ≤ cap - 1 ∧ ∀ i, cap ≤ i → st5.2 i = b0 i := by
    rw [hst5]
    exact msgPhase_safety cap rec st4 b0 h4.1 h4.2
  set st6 : Nat × (Nat → Nat) :=
    (if st5.1 < cap - 1 then (st5.1 + 1, updateFn st5.2 st5.1 10) else st5) with hst6
  have h6 : st6.1 ≤ cap - 1 ∧ ∀ i, cap ≤ i → st6.2 i = b0 i := by
    rw [hst6]
    exact charPhase_safety cap 10 st5 b0 h5.1 h5.2
  refine ⟨h6.1, ?_, ?_⟩
  · intro i hi
    simp only [updateFn]
    rw [if_neg (by omega : ¬ i = st6.1)]
    exact h6.2 i hi
  · exact updateFn_same _ _ _

/-- Claim C10: `TextFormatter::FormatRecord` returns 0 when the buffer is
null or the capacity is 0; otherwise it returns a length strictly less than
the capacity, modifies no byte at or beyond the capacity, and leaves a 0
byte at the returned position — for every record, including every stored
`message_length`. -/
theorem C10_format_record_safety (rec : LogRecord) (b : Nat → Nat) (cap : Nat) :
    FormatRecord rec none cap = (0, none) ∧
    FormatRecord rec (some b) 0 = (0, some b) ∧
    (0 < cap →
      (FormatRecord rec (some b) cap).1 < cap ∧
      (∀ i, cap ≤ i →
        ((FormatRecord rec (some b) cap).2.getD (fun _ => 0)) i = b i) ∧
      ((FormatRecord rec (some b) cap).2.getD (fun _ => 0))
        (FormatRecord rec (some b) cap).1 = 0) := by
  refine ⟨rfl, rfl, ?_⟩
  intro hcap
  obtain ⟨g1, g2, g3⟩ := formatCore_safety rec.timestamp rec b cap hcap
  simp only [FormatRecord]
  rw [if_neg (by omega : ¬ cap = 0)]
  exact ⟨by simpa using by omega, fun i hi => by simpa using g2 i hi, by simpa using g3⟩

theorem C10_format_record_safety_witness :
    (FormatRecord sampleRecord (some fun _ => 7) 4).1 < 4 ∧
    ((FormatRecord sampleRecord (some fun _ => 7) 4).2.getD (fun _ => 0)) 9 = 7 ∧
    ((FormatRecord sampleRecord (some fun _ => 7) 4).2.getD (fun _ => 0))
      (FormatRecord sampleRecord (some fun _ => 7) 4).1 = 0 := by
  have h := (C10_format_record_safety sampleRecord (fun _ => 7) 4).2.2 (by norm_num)
  exact ⟨h.1, h.2.1 9 (by norm_num), h.2.2⟩

end LowLatencyLogger
